import Mathlib

/-!
Shallow embedding of the source-arbitration engine of `booster`
(`store/store.go`): the `SourceStore` that sits in front of a protected
source storage, applies admission policies, and records sticky bindings.

Go's mutable struct is modelled by explicit state passing on a
`SourceStore` record; Go's `nil` slice / `nil` map distinctions are kept
via `Option`; the Go `map[string]string` is modelled by an association
list whose only observer is lookup; `context.Context` is modelled by an
optional millisecond budget (`context.WithTimeout` takes the minimum).
The DNS resolver and `net.ParseIP` are external collaborators, passed in
as an environment record.
-/

set_option autoImplicit false

namespace Booster

/-- A context carries at most a deadline budget (milliseconds);
`none` means no deadline. -/
abbrev Ctx : Type := Option Nat

/-- `context.WithTimeout(ctx, d)`: the child context's budget is capped
by `d` (and by the parent's budget when the parent has one). -/
def withTimeout (ctx : Ctx) (ms : Nat) : Ctx :=
  match ctx with
  | none => some ms
  | some d => some (min d ms)

/-- A source (`core.Source`): an opaque egress path with a stable ID. -/
structure Source where
  ID : String
deriving DecidableEq, Repr

/-- A policy (`store.Policy`): a named predicate on (source ID, address). -/
structure Policy where
  ID : String
  Accept : String → String → Bool

/-- Errors produced by the store itself, from the `fmt.Errorf` sites in
`AppendPolicy` / `DelPolicy`. -/
inductive StoreErr where
  /-- "a policy with identifier %v is already present" -/
  | duplicatePolicy (id : String)
  /-- "no policies stored" (DelPolicy on a nil list) -/
  | noPolicies
  /-- "no %s policy found" -/
  | policyNotFound (id : String)
deriving DecidableEq, Repr

/-- The spec's §7 error taxonomy groups both `DelPolicy` failure
messages ("the ID is absent or the list is empty") under PolicyNotFound. -/
def StoreErr.isNotFound : StoreErr → Bool
  | .noPolicies => true
  | .policyNotFound _ => true
  | .duplicatePolicy _ => false

/-- The protected storage (`core.Store`-shaped collaborator): it owns the
live source set (enumerated by `Do`, counted by `Len`) and an opaque
selection strategy `Get` that receives a context and a blacklist. -/
structure ProtectedStore where
  sources : List Source
  get : Ctx → List Source → Except String Source

/-- Modelled from the spec: the protected storage's `Put` "adds sources
to the protected storage" — the engine's excerpt only delegates to it.
The selection strategy field is untouched. -/
def ProtectedStore.put (ps : ProtectedStore) (srcs : List Source) : ProtectedStore :=
  { ps with sources := ps.sources ++ srcs }

/-- Modelled from the spec: the protected storage's `Del` "removes
sources from the protected storage". -/
def ProtectedStore.del (ps : ProtectedStore) (srcs : List Source) : ProtectedStore :=
  { ps with sources := ps.sources.filter (fun s => ¬ s ∈ srcs) }

/-- The DNS resolver collaborator (spec §6): reverse lookup
`LookupAddr(ctx, ip) -> ([]hostname, error)` and forward lookup
`LookupHost(ctx, host) -> ([]ip, error)`. -/
structure Resolver where
  LookupAddr : Ctx → String → Except String (List String)
  LookupHost : Ctx → String → Except String (List String)

/-- External environment of `SaveBindHistory`: the package-level
`Resolver` variable and `net.ParseIP` (modelled as a test "is this
address a literal IP?", which is all the code uses it for). -/
structure Env where
  resolver : Resolver
  parseIP : String → Bool

/-- Modelled from the spec: `TrimPort` "normalizes `address` by stripping
any port suffix" (its defining file is outside the excerpt; it wraps
`net.SplitHostPort`, which splits only a well-formed single
`host:port` and errors otherwise, leaving the address unchanged). -/
def trimPortList (cs : List Char) : List Char :=
  if cs.count ':' = 1 then cs.takeWhile (fun c => c ≠ ':') else cs

/-- `TrimPort` on strings: strip the `:port` suffix when there is exactly
one colon, otherwise return the address unchanged. -/
def TrimPort (address : String) : String :=
  ⟨trimPortList address.toList⟩

/-- The state of a `store.SourceStore`: the injected protected storage,
the policy list (`nil` slice kept as `none`), and the bind-history pair
(`record` flag and the `nil`-able table). -/
structure SourceStore where
  protectedStore : ProtectedStore
  policies : Option (List Policy)
  bindRecord : Bool
  bindVal : Option (List (String × String))

/-- `store.New`: a fresh `SourceStore` over `st`; Go zero values give a
nil policy slice, `record = false` and a nil table. -/
def New (st : ProtectedStore) : SourceStore :=
  { protectedStore := st, policies := none, bindRecord := false, bindVal := none }

/-- The policy list as a plain list (a Go nil slice behaves as empty in
`len` and `range`). -/
def SourceStore.policyList (ss : SourceStore) : List Policy :=
  ss.policies.getD []

/-- Go map write `m[k] = v`: insert or replace. Represented so that
lookup finds the new binding and all other keys are untouched. -/
def mapPut (m : List (String × String)) (k v : String) : List (String × String) :=
  (k, v) :: m.filter (fun kv => kv.1 ≠ k)

/-- Go map read `m[k]`: the value bound to `k`, if any. -/
def mapFind (m : List (String × String)) (k : String) : Option String :=
  (m.find? (fun kv => kv.1 = k)).map (fun kv => kv.2)

/-- The loop body of `ShouldAccept`: walk the policies in order, return
on the first one that rejects. -/
def shouldAcceptLoop (id address : String) : List Policy → Bool × Option Policy
  | [] => (true, none)
  | p :: rest =>
    if p.Accept id address then shouldAcceptLoop id address rest
    else (false, some p)

/-- `SourceStore.ShouldAccept`: `(true, nil)` on a nil policy list;
otherwise trim the port from the address and run the policies in
insertion order, returning the first offender. -/
def SourceStore.ShouldAccept (ss : SourceStore) (id address : String) :
    Bool × Option Policy :=
  match ss.policies with
  | none => (true, none)
  | some l =>
    let address := TrimPort address
    shouldAcceptLoop id address l

/-- `SourceStore.MakeBlacklist`: empty result immediately when no policy
is stored; otherwise trim the port once and accumulate, over `Do`'s
enumeration of the protected storage, every source that some policy
rejects. -/
def SourceStore.MakeBlacklist (ss : SourceStore) (address : String) : List Source :=
  let l := ss.policyList.length
  if l = 0 then []
  else
    let address := TrimPort address
    ss.protectedStore.sources.foldl
      (fun acc src =>
        if (ss.ShouldAccept src.ID address).1 then acc else acc ++ [src])
      []

/-- `SourceStore.SaveBindHistory`: no-op unless recording; allocate the
table if nil; for a literal IP do a reverse lookup (abort on error or on
zero hosts) to get a hostname; forward-resolve the hostname (abort on
error) and record `id` against every address returned. -/
def SourceStore.SaveBindHistory (ss : SourceStore) (env : Env) (ctx : Ctx)
    (id address : String) : SourceStore :=
  if !ss.bindRecord then ss
  else
    let val := ss.bindVal.getD []
    let hostResult : Except String String :=
      if env.parseIP address then
        match env.resolver.LookupAddr ctx address with
        | .error e => .error e
        | .ok [] => .error ("no hosts associated with " ++ address ++ " found")
        | .ok (h :: _) => .ok h
      else .ok address
    match hostResult with
    | .error _ => { ss with bindVal := some val }
    | .ok host =>
      match env.resolver.LookupHost ctx host with
      | .error _ => { ss with bindVal := some val }
      | .ok addrs =>
        { ss with bindVal := some (addrs.foldl (fun m v => mapPut m v id) val) }

/-- `SourceStore.Get`: trim the port, extend the caller's blacklist with
the policy-driven one, delegate to the protected storage; on error
return it; on success record the binding under a one-second timeout
context and return the source. Returns the result paired with the store
state at the moment `Get` returns. -/
def SourceStore.Get (ss : SourceStore) (env : Env) (ctx : Ctx)
    (address : String) (blacklisted : List Source) :
    Except String Source × SourceStore :=
  let address := TrimPort address
  let blacklisted := blacklisted ++ ss.MakeBlacklist address
  match ss.protectedStore.get ctx blacklisted with
  | .error e => (.error e, ss)
  | .ok src =>
    let ctx := withTimeout ctx 1000
    (.ok src, ss.SaveBindHistory env ctx src.ID address)

/-- `SourceStore.Len`: pass-through to the protected storage. -/
def SourceStore.Len (ss : SourceStore) : Nat :=
  ss.protectedStore.sources.length

/-- `SourceStore.RecordBindHistory`: fresh empty table, recording on. -/
def SourceStore.RecordBindHistory (ss : SourceStore) : SourceStore :=
  { ss with bindVal := some [], bindRecord := true }

/-- `SourceStore.StopRecordingBindHistory`: table discarded (nil),
recording off. -/
def SourceStore.StopRecordingBindHistory (ss : SourceStore) : SourceStore :=
  { ss with bindVal := none, bindRecord := false }

/-- `SourceStore.AppendPolicy`: allocate the list if nil, reject a
duplicate ID with an error, otherwise append at the end; appending the
`"stick"` policy turns bind-history recording on. -/
def SourceStore.AppendPolicy (ss : SourceStore) (p : Policy) :
    Except StoreErr Unit × SourceStore :=
  let l := ss.policyList
  match l.find? (fun v => v.ID = p.ID) with
  | some v => (.error (.duplicatePolicy v.ID), { ss with policies := some l })
  | none =>
    let ss := { ss with policies := some (l ++ [p]) }
    if p.ID = "stick" then (.ok (), ss.RecordBindHistory)
    else (.ok (), ss)

/-- The index-search loop of `DelPolicy`: the index of the first policy
whose ID matches, if any. -/
def findPolicyIdx (id : String) : List Policy → Option Nat
  | [] => none
  | v :: rest =>
    if v.ID = id then some 0 else (findPolicyIdx id rest).map (· + 1)

/-- `SourceStore.DelPolicy`: error on a nil list; error when no policy
matches; otherwise remove the first match (order preserved); deleting
`"stick"` turns bind-history recording off. -/
def SourceStore.DelPolicy (ss : SourceStore) (id : String) :
    Except StoreErr Unit × SourceStore :=
  match ss.policies with
  | none => (.error .noPolicies, ss)
  | some l =>
    match findPolicyIdx id l with
    | none => (.error (.policyNotFound id), ss)
    | some j =>
      let ss := { ss with policies := some (l.eraseIdx j) }
      if id = "stick" then (.ok (), ss.StopRecordingBindHistory)
      else (.ok (), ss)

/-- `SourceStore.Put`: pass-through to the protected storage. -/
def SourceStore.Put (ss : SourceStore) (srcs : List Source) : SourceStore :=
  { ss with protectedStore := ss.protectedStore.put srcs }

/-- `SourceStore.Del`: pass-through to the protected storage. -/
def SourceStore.Del (ss : SourceStore) (srcs : List Source) : SourceStore :=
  { ss with protectedStore := ss.protectedStore.del srcs }

/-- `SourceStore.QueryBindHistory`: `(src, ok)` lookup in the table,
not-found on a nil table; modelled as an `Option`. -/
def SourceStore.QueryBindHistory (ss : SourceStore) (address : String) :
    Option String :=
  match ss.bindVal with
  | none => none
  | some m => mapFind m address

/-- The bind-history invariant of the spec's data model: while recording
is off the table is absent. -/
def BindHistoryInv (ss : SourceStore) : Prop :=
  ss.bindRecord = false → ss.bindVal = none

/-! Concrete collaborators used to instantiate the theorems below. -/

/-- A selection strategy that hands out source `"A"` whenever `"A"` is
not blacklisted: it never returns a blacklisted source. -/
def getOnlyA : Ctx → List Source → Except String Source := fun _ blk =>
  if blk.any (fun s => s.ID = "A") then .error "no eligible source"
  else .ok { ID := "A" }

/-- A well-behaved protected storage: one live source `"A"`, selected by
`getOnlyA`. -/
def psHonest : ProtectedStore :=
  { sources := [{ ID := "A" }], get := getOnlyA }

/-- A protected storage whose strategy avoids its blacklist argument but
returns a source (`"A"`) that it does not enumerate via `Do`. -/
def psAdv : ProtectedStore :=
  { sources := [], get := getOnlyA }

/-- A policy accepting every (source, address) pair. -/
def pAllow : Policy := { ID := "allow", Accept := fun _ _ => true }

/-- A second all-accepting policy with a distinct ID. -/
def pAllow2 : Policy := { ID := "allow2", Accept := fun _ _ => true }

/-- A policy rejecting every (source, address) pair. -/
def denyAll : Policy := { ID := "deny", Accept := fun _ _ => false }

/-- The distinguished stickiness policy. -/
def pStick : Policy := { ID := "stick", Accept := fun _ _ => true }

/-- A resolver giving fixed, immediate answers. -/
def resolverEx : Resolver :=
  { LookupAddr := fun _ _ => .ok ["svc.example"]
  , LookupHost := fun _ _ => .ok ["9.9.9.9"] }

/-- A concrete environment: `resolverEx`, and only `"1.2.3.4"` parses as
a literal IP. -/
def envEx : Env :=
  { resolver := resolverEx, parseIP := fun a => a = "1.2.3.4" }

/-- Store over the adversarial storage with one all-rejecting policy. -/
def ssAdv : SourceStore := ((New psAdv).AppendPolicy denyAll).2

/-- Store over the honest storage with the `"stick"` policy appended, so
bind-history recording is on. -/
def ssStick : SourceStore := ((New psHonest).AppendPolicy pStick).2

/-- Store over the honest storage with policies `[allow, deny, allow2]`. -/
def ssMixed : SourceStore :=
  { New psHonest with policies := some [pAllow, denyAll, pAllow2] }

end Booster

namespace Booster

theorem trimPortList_noop (cs : List Char) (h : cs.count ':' ≠ 1) :
    trimPortList cs = cs := by
  unfold trimPortList
  rw [if_neg h]

theorem trimPortList_count (cs : List Char) (h : cs.count ':' = 1) :
    (trimPortList cs).count ':' = 0 := by
  unfold trimPortList
  rw [if_pos h, List.count_eq_zero]
  intro hm
  have hp := List.mem_takeWhile_imp hm
  simp at hp

theorem trimPortList_idem (cs : List Char) :
    trimPortList (trimPortList cs) = trimPortList cs := by
  by_cases h : cs.count ':' = 1
  · exact trimPortList_noop (trimPortList cs) (by simp [trimPortList_count cs h])
  · rw [trimPortList_noop cs h, trimPortList_noop cs h]

theorem toList_trimPort (a : String) : (TrimPort a).toList = trimPortList a.toList := rfl

theorem TrimPort_idem (a : String) : TrimPort (TrimPort a) = TrimPort a := by
  show (⟨trimPortList (TrimPort a).toList⟩ : String) = ⟨trimPortList a.toList⟩
  rw [toList_trimPort, trimPortList_idem]

theorem shouldAcceptLoop_eq_find (id address : String) (l : List Policy) :
    shouldAcceptLoop id address l =
      match l.find? (fun p => !(p.Accept id address)) with
      | none => (true, none)
      | some p => (false, some p) := by
  induction l with
  | nil => rfl
  | cons p rest ih =>
    by_cases h : p.Accept id address
    · simp [shouldAcceptLoop, h, ih]
    · simp [shouldAcceptLoop, h]

theorem shouldAcceptLoop_fst_true (id address : String) (l : List Policy) :
    (shouldAcceptLoop id address l).1 = true ↔
      ∀ p ∈ l, p.Accept id address = true := by
  induction l with
  | nil => simp [shouldAcceptLoop]
  | cons p rest ih =>
    by_cases h : p.Accept id address
    · simp [shouldAcceptLoop, h, ih]
    · simp [shouldAcceptLoop, h]

theorem ShouldAccept_fst_iff (ss : SourceStore) (id address : String) :
    (ss.ShouldAccept id address).1 = true ↔
      ∀ p ∈ ss.policyList, p.Accept id (TrimPort address) = true := by
  unfold SourceStore.ShouldAccept SourceStore.policyList
  cases hp : ss.policies with
  | none => simp
  | some l => simpa using shouldAcceptLoop_fst_true id (TrimPort address) l

theorem ShouldAccept_fst_eq (ss : SourceStore) (id address : String) :
    (ss.ShouldAccept id address).1 =
      !(ss.policyList.any (fun p => !(p.Accept id (TrimPort address)))) := by
  by_cases h : ∀ p ∈ ss.policyList, p.Accept id (TrimPort address) = true
  · rw [(ShouldAccept_fst_iff ss id address).mpr h]
    simpa using h
  · have h1 : (ss.ShouldAccept id address).1 = false :=
      Bool.eq_false_iff.mpr fun hc => h ((ShouldAccept_fst_iff ss id address).mp hc)
    rw [h1]
    push_neg at h
    obtain ⟨p, hmem, hrej⟩ := h
    have : ss.policyList.any (fun p => !(p.Accept id (TrimPort address))) = true := by
      rw [List.any_eq_true]
      exact ⟨p, hmem, by simp [hrej]⟩
    rw [this]
    rfl

theorem foldl_accum_filter {α : Type} (p : α → Bool) (l : List α) (acc : List α) :
    l.foldl (fun acc x => if p x then acc else acc ++ [x]) acc =
      acc ++ l.filter (fun x => !(p x)) := by
  induction l generalizing acc with
  | nil => simp
  | cons x xs ih =>
    by_cases h : p x <;> simp [h, ih]

theorem MakeBlacklist_eq_filter (ss : SourceStore) (address : String) :
    ss.MakeBlacklist address =
      ss.protectedStore.sources.filter
        (fun s => ss.policyList.any (fun p => !(p.Accept s.ID (TrimPort address)))) := by
  unfold SourceStore.MakeBlacklist
  by_cases h : ss.policyList.length = 0
  · have h0 : ss.policyList = [] := List.length_eq_zero.mp h
    simp [h, h0]
  · simp only [h, if_neg h]
    rw [foldl_accum_filter]
    rw [List.nil_append]
    apply List.filter_congr
    intro s _
    rw [ShouldAccept_fst_eq, TrimPort_idem]
    simp

theorem mapFind_mapPut_same (m : List (String × String)) (k v : String) :
    mapFind (mapPut m k v) k = some v := by
  simp [mapFind, mapPut]

theorem mapFind_mapPut_other (m : List (String × String)) (k v k' : String)
    (h : k' ≠ k) : mapFind (mapPut m k v) k' = mapFind m k' := by
  have hp : (fun (a : String × String) => (!decide (a.1 = k)) && decide (a.1 = k'))
      = (fun (a : String × String) => decide (a.1 = k')) := by
    funext a
    by_cases ha : a.1 = k'
    · have hak : ¬ (a.1 = k) := by rw [ha]; exact h
      simp [ha, hak, h]
    · simp [ha]
  have hkk' : ¬ (k = k') := fun he => h he.symm
  unfold mapFind mapPut
  simp [List.find?, hkk']
  rw [hp]

theorem mapFind_foldl_mapPut (addrs : List String) (id k : String)
    (m : List (String × String)) :
    mapFind (addrs.foldl (fun m v => mapPut m v id) m) k =
      if k ∈ addrs then some id else mapFind m k := by
  induction addrs generalizing m with
  | nil => simp
  | cons a rest ih =>
    simp only [List.foldl, ih]
    by_cases h : k ∈ rest
    · simp [h]
    · by_cases h2 : k = a
      · simp [h, h2, mapFind_mapPut_same]
      · simp [h, h2, mapFind_mapPut_other _ _ _ _ h2]

theorem shouldAcceptLoop_reaches_first (id address : String)
    (l₁ : List Policy) (p : Policy) (l₂ : List Policy)
    (h1 : ∀ q ∈ l₁, q.Accept id address = true)
    (hp : p.Accept id address = false) :
    shouldAcceptLoop id address (l₁ ++ p :: l₂) = (false, some p) := by
  induction l₁ with
  | nil => simp [shouldAcceptLoop, hp]
  | cons q rest ih =>
    have hq : q.Accept id address = true := h1 q (List.mem_cons_self q rest)
    simp only [List.cons_append, shouldAcceptLoop, hq, if_pos]
    exact ih fun r hr => h1 r (List.mem_cons_of_mem q hr)

theorem findPolicyIdx_none_iff (id : String) (l : List Policy) :
    findPolicyIdx id l = none ↔ ∀ v ∈ l, v.ID ≠ id := by
  induction l with
  | nil => simp [findPolicyIdx]
  | cons v rest ih =>
    by_cases hv : v.ID = id
    · simp [findPolicyIdx, hv]
    · simp [findPolicyIdx, hv, ih]

theorem findPolicyIdx_some_decomp (id : String) (l : List Policy) (j : Nat)
    (h : findPolicyIdx id l = some j) :
    ∃ l₁ q l₂, l = l₁ ++ q :: l₂ ∧ l₁.length = j ∧ q.ID = id ∧
      (∀ r ∈ l₁, r.ID ≠ id) ∧ l.eraseIdx j = l₁ ++ l₂ := by
  induction l generalizing j with
  | nil => exact absurd h (by simp [findPolicyIdx])
  | cons v rest ih =>
    by_cases hv : v.ID = id
    · rw [findPolicyIdx, if_pos hv] at h
      cases h
      exact ⟨[], v, rest, by simp, rfl, hv, by simp, rfl⟩
    · rw [findPolicyIdx, if_neg hv] at h
      cases hr : findPolicyIdx id rest with
      | none => rw [hr] at h; exact absurd h (by simp)
      | some j' =>
        rw [hr] at h
        simp only [Option.map_some'] at h
        cases h
        obtain ⟨l₁, q, l₂, hl, hlen, hq, hne, her⟩ := ih j' hr
        refine ⟨v :: l₁, q, l₂, by simp [hl], by simp [hlen], hq, ?_, ?_⟩
        · intro r hr'
          rcases List.mem_cons.mp hr' with h' | h'
          · rw [h']; exact hv
          · exact hne r h'
        · show (v :: rest).eraseIdx (j' + 1) = v :: (l₁ ++ l₂)
          rw [List.eraseIdx_cons_succ, her]

theorem getOnlyA_ok (c : Ctx) (b : List Source) (s : Source)
    (h : getOnlyA c b = .ok s) : s = { ID := "A" } := by
  unfold getOnlyA at h
  by_cases hb : b.any (fun s => s.ID = "A")
  · rw [if_pos hb] at h; exact Except.noConfusion h
  · rw [if_neg hb] at h
    injection h with h'
    exact h'.symm

theorem getOnlyA_avoids (c : Ctx) (b : List Source) (s : Source)
    (h : getOnlyA c b = .ok s) : s ∉ b := by
  intro hmem
  have hs := getOnlyA_ok c b s h
  unfold getOnlyA at h
  by_cases hb : b.any (fun s => s.ID = "A")
  · rw [if_pos hb] at h; exact Except.noConfusion h
  · apply hb
    rw [List.any_eq_true]
    exact ⟨s, hmem, by rw [hs]; simp⟩

theorem getOnlyA_mem (c : Ctx) (b : List Source) (s : Source)
    (h : getOnlyA c b = .ok s) : s ∈ psHonest.sources := by
  rw [getOnlyA_ok c b s h]
  exact List.mem_singleton_self _

theorem Get_fst_eq (ss : SourceStore) (env : Env) (ctx : Ctx)
    (address : String) (blk : List Source) :
    (ss.Get env ctx address blk).1 =
      ss.protectedStore.get ctx (blk ++ ss.MakeBlacklist (TrimPort address)) := by
  unfold SourceStore.Get
  cases h : ss.protectedStore.get ctx (blk ++ ss.MakeBlacklist (TrimPort address)) <;>
    simp [h]

theorem Get_snd_eq (ss : SourceStore) (env : Env) (ctx : Ctx)
    (address : String) (blk : List Source) (src : Source)
    (hok : ss.protectedStore.get ctx (blk ++ ss.MakeBlacklist (TrimPort address)) = .ok src) :
    (ss.Get env ctx address blk).2 =
      ss.SaveBindHistory env (withTimeout ctx 1000) src.ID (TrimPort address) := by
  unfold SourceStore.Get
  simp [hok]

theorem QueryBindHistory_realloc (ss : SourceStore) (a : String) :
    SourceStore.QueryBindHistory { ss with bindVal := some (ss.bindVal.getD []) } a =
      ss.QueryBindHistory a := by
  unfold SourceStore.QueryBindHistory
  cases ss.bindVal with
  | none => rfl
  | some m => rfl

end Booster

namespace Booster

/-- C2: for every policy list and source set, `MakeBlacklist(addr)`
returns exactly the stored sources that some policy rejects for the
port-stripped address; with an empty policy list the result is empty
whatever the source set holds (the storage is not enumerated). -/
theorem C2_makeBlacklist_exact (ss : SourceStore) (address : String) :
    ss.MakeBlacklist address =
      ss.protectedStore.sources.filter
        (fun s => ss.policyList.any (fun p => !(p.Accept s.ID (TrimPort address)))) ∧
    (ss.policyList = [] → ∀ srcs : List Source,
      SourceStore.MakeBlacklist
        { ss with protectedStore := { ss.protectedStore with sources := srcs } }
        address = []) := by
  constructor
  · exact MakeBlacklist_eq_filter ss address
  · intro hpl srcs
    rw [MakeBlacklist_eq_filter]
    have h2 : SourceStore.policyList
        { ss with protectedStore := { ss.protectedStore with sources := srcs } } = [] := by
      unfold SourceStore.policyList at hpl ⊢
      exact hpl
    rw [h2]
    simp

/-- C2 witness: with no policy stored, the blacklist is empty for an
arbitrary replacement source set. -/
theorem C2_witness :
    SourceStore.MakeBlacklist
      { New psHonest with
        protectedStore := { (New psHonest).protectedStore with sources := [{ ID := "B" }] } }
      "a:80" = [] :=
  (C2_makeBlacklist_exact (New psHonest) "a:80").2 rfl [{ ID := "B" }]

/-- C9: `ShouldAccept` returns `(true, nil)` iff every stored policy
accepts the port-stripped pair (so in particular on a nil or empty
list), and whenever the list is an accepted prefix followed by a
rejecting policy, the result is `(false, that policy)` regardless of
what comes after it (short-circuit evaluation). -/
theorem C9_shouldAccept_spec (ss : SourceStore) (id address : String) :
    (ss.ShouldAccept id address = (true, none) ↔
      ∀ p ∈ ss.policyList, p.Accept id (TrimPort address) = true) ∧
    (∀ l₁ p l₂, ss.policies = some (l₁ ++ p :: l₂) →
      (∀ q ∈ l₁, q.Accept id (TrimPort address) = true) →
      p.Accept id (TrimPort address) = false →
      ss.ShouldAccept id address = (false, some p)) := by
  constructor
  · unfold SourceStore.ShouldAccept SourceStore.policyList
    cases hpo : ss.policies with
    | none => simp
    | some l =>
      simp only [Option.getD_some]
      rw [shouldAcceptLoop_eq_find]
      cases hf : l.find? (fun p => !(p.Accept id (TrimPort address))) with
      | none =>
        constructor
        · intro _ p hp'
          have hnp := List.find?_eq_none.mp hf p hp'
          simpa using hnp
        · intro _; rfl
      | some q =>
        have hqmem := List.mem_of_find?_eq_some hf
        have hqrej : q.Accept id (TrimPort address) = false := by
          have := List.find?_some hf
          simpa using this
        constructor
        · intro he
          exact absurd he (by simp)
        · intro hall
          exact absurd (hall q hqmem) (by simp [hqrej])
  · intro l₁ p l₂ heq h1 hp
    unfold SourceStore.ShouldAccept
    rw [heq]
    exact shouldAcceptLoop_reaches_first id (TrimPort address) l₁ p l₂ h1 hp

/-- C9 witness: in `[allow, deny, allow2]` the rejection is attributed
to `deny`, independently of the policy after it. -/
theorem C9_witness : ssMixed.ShouldAccept "A" "x" = (false, some denyAll) :=
  (C9_shouldAccept_spec ssMixed "A" "x").2 [pAllow] denyAll [pAllow2] rfl
    (by intro q hq; rw [List.mem_singleton] at hq; subst hq; rfl) rfl

/-- C5: the value returned by `Get` is exactly the protected storage's
answer on the combined blacklist: errors propagate unchanged, success
is forwarded as-is, and the recording environment (resolver, IP
parsing) never influences the returned value. -/
theorem C5_get_error_propagation (ss : SourceStore) (env : Env) (ctx : Ctx)
    (address : String) (blk : List Source) :
    (ss.Get env ctx address blk).1 =
      ss.protectedStore.get ctx (blk ++ ss.MakeBlacklist (TrimPort address)) ∧
    ∀ env' : Env, (ss.Get env ctx address blk).1 = (ss.Get env' ctx address blk).1 := by
  refine ⟨Get_fst_eq ss env ctx address blk, fun env' => ?_⟩
  rw [Get_fst_eq, Get_fst_eq]

/-- C7: appending a policy whose ID is already stored fails with
DuplicatePolicy and leaves the store (policy list and bind history)
unchanged; appending a fresh ID succeeds and appends at the end. -/
theorem C7_appendPolicy_spec (ss : SourceStore) (p : Policy) :
    (ss.policyList.any (fun v => v.ID = p.ID) = true →
      (ss.AppendPolicy p).1 = .error (.duplicatePolicy p.ID) ∧
      (ss.AppendPolicy p).2 = ss) ∧
    (ss.policyList.any (fun v => v.ID = p.ID) = false →
      (ss.AppendPolicy p).1 = .ok () ∧
      (ss.AppendPolicy p).2.policyList = ss.policyList ++ [p]) := by
  constructor
  · intro hdup
    cases hf : ss.policyList.find? (fun v => v.ID = p.ID) with
    | none =>
      exfalso
      rw [List.any_eq_true] at hdup
      obtain ⟨v, hv, hvid⟩ := hdup
      have := List.find?_eq_none.mp hf v hv
      exact this hvid
    | some v =>
      have hvid : v.ID = p.ID := by
        have := List.find?_some hf
        simpa using this
      have hne : ss.policies = some ss.policyList := by
        cases hpo : ss.policies with
        | none =>
          exfalso
          have : ss.policyList = [] := by
            unfold SourceStore.policyList; rw [hpo]; rfl
          rw [this] at hf
          exact Option.noConfusion hf
        | some l0 =>
          unfold SourceStore.policyList
          rw [hpo]
          rfl
      constructor
      · simp only [SourceStore.AppendPolicy]
        rw [hf]
        show Except.error (StoreErr.duplicatePolicy v.ID)
          = Except.error (StoreErr.duplicatePolicy p.ID)
        rw [hvid]
      · simp only [SourceStore.AppendPolicy]
        rw [hf]
        show { ss with policies := some ss.policyList } = ss
        rw [← hne]
  · intro hfresh
    have hf : ss.policyList.find? (fun v => v.ID = p.ID) = none := by
      rw [List.find?_eq_none]
      intro v hv hvid
      rw [List.any_eq_false] at hfresh
      exact hfresh v hv hvid
    constructor
    · simp only [SourceStore.AppendPolicy]
      rw [hf]
      by_cases hstick : p.ID = "stick" <;> simp [hstick]
    · simp only [SourceStore.AppendPolicy]
      rw [hf]
      by_cases hstick : p.ID = "stick" <;>
        simp [hstick, SourceStore.RecordBindHistory, SourceStore.policyList]

/-- C7 witness: appending a fresh policy onto an empty store succeeds
and the list becomes that single policy. -/
theorem C7_witness :
    ((New psHonest).AppendPolicy pAllow).1 = .ok () ∧
    ((New psHonest).AppendPolicy pAllow).2.policyList
      = (New psHonest).policyList ++ [pAllow] :=
  (C7_appendPolicy_spec (New psHonest) pAllow).2 rfl

end Booster

namespace Booster

theorem Get_snd_err (ss : SourceStore) (env : Env) (ctx : Ctx)
    (address : String) (blk : List Source) (e : String)
    (h : ss.protectedStore.get ctx (blk ++ ss.MakeBlacklist (TrimPort address)) = .error e) :
    (ss.Get env ctx address blk).2 = ss := by
  unfold SourceStore.Get
  simp [h]

theorem SaveBindHistory_inv (ss : SourceStore) (env : Env) (ctx : Ctx)
    (id address : String) (h : BindHistoryInv ss) :
    BindHistoryInv (ss.SaveBindHistory env ctx id address) := by
  unfold SourceStore.SaveBindHistory
  by_cases hr : ss.bindRecord = true
  · simp only [hr, Bool.not_true, Bool.false_eq_true, if_false]
    split
    · intro h'; simp at h'
    · split <;> (intro h'; simp at h')
  · have hr' : ss.bindRecord = false := by simpa using hr
    simp only [hr', Bool.not_false, if_true]
    exact h

/-- C8: `DelPolicy` on a nil list or with an unknown ID fails with a
not-found error and leaves the store unchanged; on a match it succeeds,
removes exactly the first matching policy, preserves the order of the
rest, and shrinks the list by one. -/
theorem C8_delPolicy_spec (ss : SourceStore) (id : String) :
    (ss.policies = none →
      (ss.DelPolicy id).1 = .error .noPolicies ∧
      StoreErr.isNotFound .noPolicies = true ∧
      (ss.DelPolicy id).2 = ss) ∧
    (∀ l, ss.policies = some l → (∀ v ∈ l, v.ID ≠ id) →
      (ss.DelPolicy id).1 = .error (.policyNotFound id) ∧
      StoreErr.isNotFound (.policyNotFound id) = true ∧
      (ss.DelPolicy id).2 = ss) ∧
    (∀ l, ss.policies = some l → l.any (fun v => v.ID = id) = true →
      (ss.DelPolicy id).1 = .ok () ∧
      ∃ l₁ q l₂, l = l₁ ++ q :: l₂ ∧ q.ID = id ∧ (∀ r ∈ l₁, r.ID ≠ id) ∧
        (ss.DelPolicy id).2.policyList = l₁ ++ l₂ ∧
        (ss.DelPolicy id).2.policyList.length + 1 = l.length) := by
  refine ⟨?_, ?_, ?_⟩
  · intro hpo
    have h1 : ss.DelPolicy id = (.error .noPolicies, ss) := by
      unfold SourceStore.DelPolicy
      rw [hpo]
    exact ⟨by rw [h1], rfl, by rw [h1]⟩
  · intro l hpo hne
    have hf : findPolicyIdx id l = none := (findPolicyIdx_none_iff id l).mpr hne
    have h1 : ss.DelPolicy id = (.error (.policyNotFound id), ss) := by
      simp only [SourceStore.DelPolicy, hpo, hf]
    exact ⟨by rw [h1], rfl, by rw [h1]⟩
  · intro l hpo hany
    have hj' : ∃ j, findPolicyIdx id l = some j := by
      cases hfi : findPolicyIdx id l with
      | none =>
        exfalso
        rw [findPolicyIdx_none_iff] at hfi
        rw [List.any_eq_true] at hany
        obtain ⟨v, hv, hvid⟩ := hany
        exact hfi v hv (by simpa using hvid)
      | some j => exact ⟨j, rfl⟩
    obtain ⟨j, hj⟩ := hj'
    obtain ⟨l₁, q, l₂, hl, hlen, hq, hne, her⟩ := findPolicyIdx_some_decomp id l j hj
    have hpost : (ss.DelPolicy id).2.policyList = l₁ ++ l₂ := by
      simp only [SourceStore.DelPolicy, hpo, hj]
      by_cases hstick : id = "stick" <;>
        simp [hstick, SourceStore.StopRecordingBindHistory, SourceStore.policyList, her]
    constructor
    · simp only [SourceStore.DelPolicy, hpo, hj]
      by_cases hstick : id = "stick" <;> simp [hstick]
    · refine ⟨l₁, q, l₂, hl, hq, hne, hpost, ?_⟩
      rw [hpost, hl]
      simp only [List.length_append, List.length_cons]
      omega

/-- C8 witness: deleting from a fresh store (nil policy list) fails with
the not-found error and changes nothing. -/
theorem C8_witness :
    ((New psHonest).DelPolicy "x").1 = .error .noPolicies ∧
    StoreErr.isNotFound .noPolicies = true ∧
    ((New psHonest).DelPolicy "x").2 = New psHonest :=
  (C8_delPolicy_spec (New psHonest) "x").1 rfl

/-- C10: `AppendPolicy` and `DelPolicy` never touch the protected source
storage, and for any policy ID other than `"stick"` they leave the whole
bind-history state (flag and table) unchanged. -/
theorem C10_policy_ops_frame (ss : SourceStore) (p : Policy) (id : String) :
    (ss.AppendPolicy p).2.protectedStore = ss.protectedStore ∧
    (ss.DelPolicy id).2.protectedStore = ss.protectedStore ∧
    (p.ID ≠ "stick" →
      (ss.AppendPolicy p).2.bindRecord = ss.bindRecord ∧
      (ss.AppendPolicy p).2.bindVal = ss.bindVal) ∧
    (id ≠ "stick" →
      (ss.DelPolicy id).2.bindRecord = ss.bindRecord ∧
      (ss.DelPolicy id).2.bindVal = ss.bindVal) := by
  refine ⟨?_, ?_, ?_, ?_⟩
  · simp only [SourceStore.AppendPolicy]
    split
    · rfl
    · split <;> rfl
  · simp only [SourceStore.DelPolicy]
    split
    · rfl
    · split
      · rfl
      · split <;> rfl
  · intro hstick
    refine ⟨?_, ?_⟩ <;>
    · simp only [SourceStore.AppendPolicy]
      split
      · rfl
      · rw [if_neg hstick]
  · intro hstick
    refine ⟨?_, ?_⟩ <;>
    · simp only [SourceStore.DelPolicy]
      split
      · rfl
      · split
        · rfl
        · rw [if_neg hstick]

/-- C10 witness: appending a non-"stick" policy to a fresh store leaves
the bind-history fields and the protected storage as they were. -/
theorem C10_witness :
    ((New psHonest).AppendPolicy pAllow).2.protectedStore
      = (New psHonest).protectedStore ∧
    ((New psHonest).AppendPolicy pAllow).2.bindRecord = (New psHonest).bindRecord ∧
    ((New psHonest).AppendPolicy pAllow).2.bindVal = (New psHonest).bindVal :=
  ⟨(C10_policy_ops_frame (New psHonest) pAllow "x").1,
   (C10_policy_ops_frame (New psHonest) pAllow "x").2.2.1 (by decide)⟩

/-- C3: appending the `"stick"` policy turns recording on with a fresh
empty table; deleting it turns recording off, discards the table, and
every subsequent bind-history query is not-found; and the invariant
"recording off implies table absent" holds initially and is preserved
by every operation of the `SourceStore`. -/
theorem C3_stick_bind_lifecycle (st : ProtectedStore) (ss : SourceStore) (p : Policy)
    (env : Env) (ctx : Ctx) (id address : String) (srcs blk : List Source) :
    BindHistoryInv (New st) ∧
    (p.ID = "stick" → (ss.AppendPolicy p).1 = .ok () →
      (ss.AppendPolicy p).2.bindRecord = true ∧
      (ss.AppendPolicy p).2.bindVal = some []) ∧
    ((ss.DelPolicy "stick").1 = .ok () →
      (ss.DelPolicy "stick").2.bindRecord = false ∧
      (ss.DelPolicy "stick").2.bindVal = none ∧
      ∀ a, (ss.DelPolicy "stick").2.QueryBindHistory a = none) ∧
    (BindHistoryInv ss →
      BindHistoryInv (ss.AppendPolicy p).2 ∧
      BindHistoryInv (ss.DelPolicy id).2 ∧
      BindHistoryInv (ss.SaveBindHistory env ctx id address) ∧
      BindHistoryInv (ss.Get env ctx address blk).2 ∧
      BindHistoryInv (ss.Put srcs) ∧
      BindHistoryInv (ss.Del srcs) ∧
      BindHistoryInv ss.RecordBindHistory ∧
      BindHistoryInv ss.StopRecordingBindHistory) := by
  refine ⟨fun _ => rfl, ?_, ?_, ?_⟩
  · intro hstick hok
    cases hf : ss.policyList.find? (fun v => v.ID = p.ID) with
    | some v =>
      have h1 : (ss.AppendPolicy p).1 = .error (.duplicatePolicy v.ID) := by
        simp only [SourceStore.AppendPolicy]
        rw [hf]
      rw [h1] at hok
      exact absurd hok (by simp)
    | none =>
      have h1 : ss.AppendPolicy p = (.ok (),
          ({ ss with policies := some (ss.policyList ++ [p]) }
            : SourceStore).RecordBindHistory) := by
        simp only [SourceStore.AppendPolicy]
        rw [hf]
        simp [hstick]
      rw [h1]
      exact ⟨rfl, rfl⟩
  · intro hok
    cases hpo : ss.policies with
    | none =>
      have h1 : (ss.DelPolicy "stick").1 = .error .noPolicies := by
        simp only [SourceStore.DelPolicy, hpo]
      rw [h1] at hok
      exact absurd hok (by simp)
    | some l =>
      cases hf : findPolicyIdx "stick" l with
      | none =>
        have h1 : (ss.DelPolicy "stick").1 = .error (.policyNotFound "stick") := by
          simp only [SourceStore.DelPolicy, hpo, hf]
        rw [h1] at hok
        exact absurd hok (by simp)
      | some j =>
        have h1 : (ss.DelPolicy "stick").2
            = ({ ss with policies := some (l.eraseIdx j) }
                : SourceStore).StopRecordingBindHistory := by
          simp [SourceStore.DelPolicy, hpo, hf]
        rw [h1]
        exact ⟨rfl, rfl, fun a => rfl⟩
  · intro hinv
    refine ⟨?_, ?_, SaveBindHistory_inv ss env ctx id address hinv, ?_, hinv, hinv, ?_, ?_⟩
    · simp only [SourceStore.AppendPolicy]
      split
      · exact hinv
      · split
        · intro h'; exact absurd h' (by simp [SourceStore.RecordBindHistory])
        · exact hinv
    · simp only [SourceStore.DelPolicy]
      split
      · exact hinv
      · split
        · exact hinv
        · split
          · intro _; rfl
          · exact hinv
    · cases hg : ss.protectedStore.get ctx (blk ++ ss.MakeBlacklist (TrimPort address)) with
      | error e =>
        rw [Get_snd_err ss env ctx address blk e hg]
        exact hinv
      | ok src =>
        rw [Get_snd_eq ss env ctx address blk src hg]
        exact SaveBindHistory_inv ss env (withTimeout ctx 1000) src.ID (TrimPort address) hinv
    · intro h'; exact absurd h' (by simp [SourceStore.RecordBindHistory])
    · intro _; rfl

/-- C3 witness: appending the stick policy to a fresh store switches
recording on with an empty table. -/
theorem C3_witness :
    ((New psHonest).AppendPolicy pStick).2.bindRecord = true ∧
    ((New psHonest).AppendPolicy pStick).2.bindVal = some [] :=
  (C3_stick_bind_lifecycle psHonest (New psHonest) pStick envEx none "i" "a" [] []).2.1
    rfl rfl

end Booster

namespace Booster

theorem mapFind_getD (ss : SourceStore) (a : String) :
    mapFind (ss.bindVal.getD []) a = ss.QueryBindHistory a := by
  unfold SourceStore.QueryBindHistory
  cases ss.bindVal with
  | none => rfl
  | some m => rfl

theorem Query_of_bindVal (ss' : SourceStore) (m : List (String × String))
    (h : ss'.bindVal = some m) (a : String) :
    ss'.QueryBindHistory a = mapFind m a := by
  unfold SourceStore.QueryBindHistory
  rw [h]

/-- C4: with recording off `SaveBindHistory` is the identity; with
recording on, a literal-IP address triggers a reverse lookup whose error
or empty answer aborts the step with the table's bindings unchanged,
otherwise the (possibly original) hostname is forward-resolved; a
forward-lookup error aborts with the bindings unchanged, and on success
the source ID is recorded against every returned address, all other
bindings untouched. -/
theorem C4_saveBindHistory_spec (ss : SourceStore) (env : Env) (ctx : Ctx)
    (id address : String) :
    (ss.bindRecord = false → ss.SaveBindHistory env ctx id address = ss) ∧
    (ss.bindRecord = true → env.parseIP address = true →
      (∀ e, env.resolver.LookupAddr ctx address = .error e →
        ∀ a, (ss.SaveBindHistory env ctx id address).QueryBindHistory a
          = ss.QueryBindHistory a) ∧
      (env.resolver.LookupAddr ctx address = .ok [] →
        ∀ a, (ss.SaveBindHistory env ctx id address).QueryBindHistory a
          = ss.QueryBindHistory a) ∧
      (∀ h t, env.resolver.LookupAddr ctx address = .ok (h :: t) →
        (∀ e, env.resolver.LookupHost ctx h = .error e →
          ∀ a, (ss.SaveBindHistory env ctx id address).QueryBindHistory a
            = ss.QueryBindHistory a) ∧
        (∀ addrs, env.resolver.LookupHost ctx h = .ok addrs →
          (∀ a ∈ addrs,
            (ss.SaveBindHistory env ctx id address).QueryBindHistory a = some id) ∧
          (∀ a, a ∉ addrs →
            (ss.SaveBindHistory env ctx id address).QueryBindHistory a
              = ss.QueryBindHistory a)))) ∧
    (ss.bindRecord = true → env.parseIP address = false →
      (∀ e, env.resolver.LookupHost ctx address = .error e →
        ∀ a, (ss.SaveBindHistory env ctx id address).QueryBindHistory a
          = ss.QueryBindHistory a) ∧
      (∀ addrs, env.resolver.LookupHost ctx address = .ok addrs →
        (∀ a ∈ addrs,
          (ss.SaveBindHistory env ctx id address).QueryBindHistory a = some id) ∧
        (∀ a, a ∉ addrs →
          (ss.SaveBindHistory env ctx id address).QueryBindHistory a
            = ss.QueryBindHistory a))) := by
  refine ⟨?_, ?_, ?_⟩
  · intro hr
    unfold SourceStore.SaveBindHistory
    simp [hr]
  · intro hr hip
    refine ⟨?_, ?_, ?_⟩
    · intro e he a
      have h1 : ss.SaveBindHistory env ctx id address
          = { ss with bindVal := some (ss.bindVal.getD []) } := by
        simp only [SourceStore.SaveBindHistory]
        simp [hr, hip, he]
      rw [h1, QueryBindHistory_realloc]
    · intro he a
      have h1 : ss.SaveBindHistory env ctx id address
          = { ss with bindVal := some (ss.bindVal.getD []) } := by
        simp only [SourceStore.SaveBindHistory]
        simp [hr, hip, he]
      rw [h1, QueryBindHistory_realloc]
    · intro h t hla
      refine ⟨?_, ?_⟩
      · intro e hlh a
        have h1 : ss.SaveBindHistory env ctx id address
            = { ss with bindVal := some (ss.bindVal.getD []) } := by
          simp only [SourceStore.SaveBindHistory]
          simp [hr, hip, hla, hlh]
        rw [h1, QueryBindHistory_realloc]
      · intro addrs hlh
        have h1 : (ss.SaveBindHistory env ctx id address).bindVal
            = some (addrs.foldl (fun m v => mapPut m v id) (ss.bindVal.getD [])) := by
          simp only [SourceStore.SaveBindHistory]
          simp [hr, hip, hla, hlh]
        refine ⟨?_, ?_⟩
        · intro a ha
          rw [Query_of_bindVal _ _ h1, mapFind_foldl_mapPut, if_pos ha]
        · intro a ha
          rw [Query_of_bindVal _ _ h1, mapFind_foldl_mapPut, if_neg ha]
          exact mapFind_getD ss a
  · intro hr hip
    refine ⟨?_, ?_⟩
    · intro e hlh a
      have h1 : ss.SaveBindHistory env ctx id address
          = { ss with bindVal := some (ss.bindVal.getD []) } := by
        simp only [SourceStore.SaveBindHistory]
        simp [hr, hip, hlh]
      rw [h1, QueryBindHistory_realloc]
    · intro addrs hlh
      have h1 : (ss.SaveBindHistory env ctx id address).bindVal
          = some (addrs.foldl (fun m v => mapPut m v id) (ss.bindVal.getD [])) := by
        simp only [SourceStore.SaveBindHistory]
        simp [hr, hip, hlh]
      refine ⟨?_, ?_⟩
      · intro a ha
        rw [Query_of_bindVal _ _ h1, mapFind_foldl_mapPut, if_pos ha]
      · intro a ha
        rw [Query_of_bindVal _ _ h1, mapFind_foldl_mapPut, if_neg ha]
        exact mapFind_getD ss a

/-- C4 witness: recording on, hostname address, forward lookup answers
one IP; the source ID is recorded against it. -/
theorem C4_witness :
    (ssStick.SaveBindHistory envEx none "A" "svc.example").QueryBindHistory "9.9.9.9"
      = some "A" :=
  (((C4_saveBindHistory_spec ssStick envEx none "A" "svc.example").2.2 rfl rfl).2
    ["9.9.9.9"] rfl).1 "9.9.9.9" (by simp)

/-- C1 counterexample: a protected storage whose strategy never returns
a blacklisted source (the claim's stated hypothesis) but hands out a
source it does not enumerate; with one all-rejecting policy active,
`Get` returns source "A" even though that policy rejects "A" for the
queried address — the claim's conclusion fails. -/
theorem C1_counterexample :
    (∀ c b s, ssAdv.protectedStore.get c b = .ok s → s ∉ b) ∧
    (ssAdv.Get envEx none "bank.example" []).1 = .ok { ID := "A" } ∧
    ∃ p ∈ ssAdv.policyList, p.Accept "A" (TrimPort "bank.example") = false := by
  refine ⟨?_, rfl, ?_⟩
  · intro c b s h
    exact getOnlyA_avoids c b s h
  · exact ⟨denyAll, List.mem_singleton_self denyAll, rfl⟩

/-- C1 (amended): when the protected storage's `Get` returns only
sources it enumerates and never one in its blacklist argument, a source
returned by `SourceStore.Get` is neither in the caller-supplied
blacklist nor rejected by any stored policy for the port-stripped
address. -/
theorem C1_get_avoids_blacklists (ss : SourceStore) (env : Env) (ctx : Ctx)
    (address : String) (blk : List Source) (src : Source)
    (hmem : ∀ c b s, ss.protectedStore.get c b = .ok s → s ∈ ss.protectedStore.sources)
    (hblk : ∀ c b s, ss.protectedStore.get c b = .ok s → s ∉ b)
    (hok : (ss.Get env ctx address blk).1 = .ok src) :
    src ∉ blk ∧ ∀ p ∈ ss.policyList, p.Accept src.ID (TrimPort address) = true := by
  rw [Get_fst_eq] at hok
  have hnb := hblk ctx _ src hok
  constructor
  · intro hm
    exact hnb (List.mem_append_left _ hm)
  · intro p hp
    by_contra hrej
    have hrej' : p.Accept src.ID (TrimPort address) = false := by
      cases hb : p.Accept src.ID (TrimPort address)
      · rfl
      · exact absurd hb hrej
    have hsm := hmem ctx _ src hok
    have hin : src ∈ ss.MakeBlacklist (TrimPort address) := by
      rw [MakeBlacklist_eq_filter, List.mem_filter]
      refine ⟨hsm, ?_⟩
      rw [TrimPort_idem, List.any_eq_true]
      exact ⟨p, hp, by simp [hrej']⟩
    exact hnb (List.mem_append_right _ hin)

/-- C1 witness: the honest one-source storage satisfies both
hypotheses; `Get` returns "A", which is outside the (empty) blacklist
and accepted by the (empty) policy list. -/
theorem C1_witness :
    ({ ID := "A" } : Source) ∉ ([] : List Source) ∧
    ∀ p ∈ (New psHonest).policyList,
      p.Accept (Source.ID { ID := "A" }) (TrimPort "example.com") = true :=
  C1_get_avoids_blacklists (New psHonest) envEx none "example.com" []
    { ID := "A" }
    (fun c b s h => getOnlyA_mem c b s h)
    (fun c b s h => getOnlyA_avoids c b s h) rfl

/-- C6 counterexample: at the moment `Get` returns, the recording step
has already completed — the state `Get` hands back contains the fresh
binding that was absent beforehand, so `Get` waited for the recording
step rather than returning without it. -/
theorem C6_counterexample :
    (ssStick.Get envEx none "svc.example" []).2.QueryBindHistory "9.9.9.9"
      = some "A" ∧
    ssStick.QueryBindHistory "9.9.9.9" = none :=
  ⟨rfl, rfl⟩

/-- C6 (amended): on a successful acquisition `Get` runs the
bind-history recording synchronously before returning, under the
caller's context capped to a one-second budget; the recording outcome
never changes the returned value. -/
theorem C6_get_records_before_return (ss : SourceStore) (env : Env) (ctx : Ctx)
    (address : String) (blk : List Source) (src : Source)
    (hok : ss.protectedStore.get ctx (blk ++ ss.MakeBlacklist (TrimPort address))
      = .ok src) :
    (ss.Get env ctx address blk).1 = .ok src ∧
    (ss.Get env ctx address blk).2
      = ss.SaveBindHistory env (withTimeout ctx 1000) src.ID (TrimPort address) :=
  ⟨by rw [Get_fst_eq, hok], Get_snd_eq ss env ctx address blk src hok⟩

/-- C6 witness: concrete run of the amended statement. -/
theorem C6_witness :
    (ssStick.Get envEx none "svc.example" []).1 = .ok { ID := "A" } ∧
    (ssStick.Get envEx none "svc.example" []).2
      = ssStick.SaveBindHistory envEx (withTimeout none 1000)
          (Source.ID { ID := "A" }) (TrimPort "svc.example") :=
  C6_get_records_before_return ssStick envEx none "svc.example" [] { ID := "A" } rfl

end Booster
